import Mathlib

/-!
Verification development for the `datainspector` dataset-profiling service.

The profiling engine (`src/inspector/services.py`, class `DataProfile`) loads a
CSV file into a pandas `DataFrame` and computes seven reports: `summary`,
`missing`, `dtypes`, `nunique`, `outlier_table`, `duplicates` and `columns`.
The dataset-resolution helper (`src/inspector/views.py`, `_get_dataset_path`)
maps an opaque dataset identifier to a stored file by filename scanning.

We embed the in-memory table as a columnar structure: each column carries a
name, an inferred storage dtype, and an ordered list of cells, where a cell is
`Option Value` (`none` models a missing value / `NaN`).  Numeric cell contents
are modelled with `ℚ` (exact linear-interpolation quantile arithmetic mirrors
the float computation on the inputs of interest).  Each `DataProfile` method
is translated from the source; the loader is kept abstract as a function from
a file path to `Except LoadError Table`, since CSV parsing itself is a pandas
collaborator outside the profiling engine.
-/

/-- Storage dtype of a pandas column, as inferred by `read_csv`. -/
inductive Dtype where
  | int64
  | float64
  | boolDtype
  | datetime64
  | object
deriving DecidableEq, Repr

/-- A non-missing cell payload. Numeric cells carry an exact rational. -/
inductive Value where
  | num (q : ℚ)
  | text (s : String)
  | boolean (b : Bool)
deriving DecidableEq, Repr

/-- A cell of the table: `none` is a missing value (pandas `NaN`). -/
abbrev Cell := Option Value

/-- One column of the parsed table: name, storage dtype, ordered cells. -/
structure Col where
  name : String
  dtype : Dtype
  cells : List Cell
deriving DecidableEq, Repr

/-- The in-memory table produced by the Tabular Loader: an ordered list of
columns together with the row count (`df.shape[0]`). -/
structure Table where
  nrows : Nat
  cols : List Col
deriving DecidableEq, Repr

/-- Each column of a well-formed table has exactly `nrows` cells. -/
def Table.Uniform (t : Table) : Prop :=
  ∀ c ∈ t.cols, c.cells.length = t.nrows

instance (t : Table) : Decidable t.Uniform :=
  inferInstanceAs (Decidable (∀ c ∈ t.cols, c.cells.length = t.nrows))

/-- `df.columns.tolist()`: the ordered column names. -/
def Table.columns (t : Table) : List String :=
  t.cols.map Col.name

/-- Row `i` of the table, reading cell `i` of every column in column order. -/
def Table.row (t : Table) (i : Nat) : List Cell :=
  t.cols.map (fun c => c.cells.getD i none)

/-- The table's rows in original order (row-major view of the columns). -/
def Table.rows (t : Table) : List (List Cell) :=
  (List.range t.nrows).map t.row

/-- Number of missing cells in a column (`df[col].isna().sum()`). -/
def missingCount (c : Col) : Nat :=
  c.cells.countP (fun x => x.isNone)

/-- `df.duplicated()` with the default `keep .eq. first` marking, folded into a
count: walking the rows in order with the set of already-seen rows, a row
counts iff it is value-identical to some earlier row. This mirrors the pandas
hashtable algorithm behind `df.duplicated().sum()`. -/
def dupFirstAux : List (List Cell) → List (List Cell) → Nat
  | _, [] => 0
  | seen, r :: rs => (if r ∈ seen then 1 else 0) + dupFirstAux (r :: seen) rs

/-- `summary()` report. The `memory_bytes` field of the source (pandas deep
memory usage) is an interpreter-internal quantity with no algorithmic content
and is not modelled. -/
structure SummaryReport where
  rows : Nat
  columns : Nat
  missing_total : Nat
  missing_pct : ℚ
  duplicate_rows : Nat
deriving DecidableEq, Repr

/-- `DataProfile.summary`: row/column counts, total missing cells, missing
percentage (0 when `rows*cols` is 0, per the Python truthiness guard
`if rows and cols else 0`), and duplicate-row count with first occurrences
not counted. -/
def Table.summary (t : Table) : SummaryReport :=
  let rows := t.nrows
  let cols := t.cols.length
  let missing_total := (t.cols.map missingCount).sum
  { rows := rows
    columns := cols
    missing_total := missing_total
    missing_pct :=
      if rows ≠ 0 ∧ cols ≠ 0 then (missing_total : ℚ) / ((rows : ℚ) * (cols : ℚ)) * 100 else 0
    duplicate_rows := dupFirstAux [] t.rows }

/-- One entry of the `missing()` report. -/
structure MissingEntry where
  column : String
  missing : Nat
  missing_pct : ℚ
deriving DecidableEq, Repr

/-- `DataProfile.missing`: per column, in column order, the missing-cell count
and its percentage of the row count (`0` when `len(df)` is 0). -/
def Table.missing (t : Table) : List MissingEntry :=
  t.cols.map (fun c =>
    { column := c.name
      missing := missingCount c
      missing_pct :=
        if t.nrows ≠ 0 then ((missingCount c : ℚ) / (t.nrows : ℚ)) * 100 else 0 })

/-- One entry of the `nunique()` report. -/
structure NuniqueEntry where
  column : String
  unique : Nat
deriving DecidableEq, Repr

/-- `DataProfile.nunique`: per column, in column order,
`df.nunique(dropna .eq. false)`: the number of distinct cell values where all
missing cells are identified with each other (pandas counts `NaN` once). -/
def Table.nunique (t : Table) : List NuniqueEntry :=
  t.cols.map (fun c => { column := c.name, unique := c.cells.dedup.length })

/-- One entry of the `dtypes()` report. -/
structure DtypeEntry where
  column : String
  dtype : Dtype
  inferred : String
deriving DecidableEq, Repr

/-- Secondary human-friendly classification of a column from its non-missing
values (the role of `pandas.api.types.infer_dtype` with `skipna .eq. true`);
the taxonomy is reduced to the variants the profiled data can exhibit. -/
def inferredKind (cells : List Cell) : String :=
  let present := cells.filterMap id
  if present.all (fun v => match v with | Value.num q => q.den = 1 | _ => false) then "integer"
  else if present.all (fun v => match v with | Value.num _ => true | _ => false) then "floating"
  else if present.all (fun v => match v with | Value.text _ => true | _ => false) then "string"
  else if present.all (fun v => match v with | Value.boolean _ => true | _ => false) then "boolean"
  else "mixed"

/-- `DataProfile.dtypes`: per column, in column order, the storage dtype and
the secondary inferred classification over present values. -/
def Table.dtypes (t : Table) : List DtypeEntry :=
  t.cols.map (fun c => { column := c.name, dtype := c.dtype, inferred := inferredKind c.cells })

/-- `select_dtypes(include .eq. number)` keeps integer and floating columns. -/
def isNumericDtype : Dtype → Bool
  | Dtype.int64 => true
  | Dtype.float64 => true
  | _ => false

/-- Numeric payload of a cell, when present. -/
def cellNum : Cell → Option ℚ
  | some (Value.num q) => some q
  | _ => none

/-- `numeric[col].dropna()`: the non-missing numeric values of a column, in
row order. -/
def numSeries (c : Col) : List ℚ :=
  c.cells.filterMap cellNum

/-- `Series.quantile q` with the default linear interpolation: with the values
sorted ascending and `h = q * (n - 1)`, interpolate between the order
statistics at `⌊h⌋` and `⌊h⌋ + 1`. Meaningful for nonempty input. -/
def quantileLinear (xs : List ℚ) (q : ℚ) : ℚ :=
  let s := List.insertionSort (· ≤ ·) xs
  let h : ℚ := q * ((s.length : ℚ) - 1)
  let j : Nat := (⌊h⌋).toNat
  s.getD j 0 + (h - (⌊h⌋ : ℚ)) * (s.getD (j + 1) (s.getD j 0) - s.getD j 0)

/-- Round-half-to-even to an integer (the rounding of Python's `round`). -/
def roundHalfEven (x : ℚ) : ℤ :=
  if x - (⌊x⌋ : ℚ) < 1/2 then ⌊x⌋
  else if (1/2 : ℚ) < x - (⌊x⌋ : ℚ) then ⌊x⌋ + 1
  else if ⌊x⌋ % 2 = 0 then ⌊x⌋ else ⌊x⌋ + 1

/-- `round(x, 2)`: round to two decimal places. -/
def round2 (x : ℚ) : ℚ :=
  (roundHalfEven (100 * x) : ℚ) / 100

/-- One entry of the `outlier_table()` report. -/
structure OutlierEntry where
  column : String
  outliers : Nat
  pct : ℚ
deriving DecidableEq, Repr

/-- The body of the `outlier_table` loop for one numeric column whose dropped
series is nonempty: IQR fences and the strict outlier count/percentage. -/
def outlierEntry (c : Col) : OutlierEntry :=
  let series := numSeries c
  let q1 := quantileLinear series (1/4)
  let q3 := quantileLinear series (3/4)
  let iqr := q3 - q1
  let lower := q1 - 3/2 * iqr
  let upper := q3 + 3/2 * iqr
  let cnt := series.countP (fun x => decide (x < lower) || decide (upper < x))
  { column := c.name
    outliers := cnt
    pct := round2 ((cnt : ℚ) / (series.length : ℚ) * 100) }

/-- `DataProfile.outlier_table`: over the numeric-dtype columns in column
order, skip a column whose dropped series is empty, otherwise report the
IQR-fence outlier count and percentage rounded to 2 decimals. -/
def Table.outlier_table (t : Table) : List OutlierEntry :=
  (t.cols.filter (fun c => isNumericDtype c.dtype)).filterMap (fun c =>
    if (numSeries c).length = 0 then none else some (outlierEntry c))

/-- `duplicates()` report: the count and the row sample, each sampled row a
record mapping column name to value (`to_dict(orient .eq. records)`). -/
structure DupReport where
  count : Nat
  duplicates_sample : List (List (String × Cell))
deriving DecidableEq, Repr

/-- `DataProfile.duplicates`: `df.duplicated(keep .eq. false)` marks every row
whose value occurs at least twice in the table; the report counts all marked
rows and samples the first `sample_size` of them in original order. The
source's default sample size is 5. -/
def Table.duplicates (t : Table) (sample_size : Nat) : DupReport :=
  let rows := t.rows
  let dups := rows.filter (fun r => decide (2 ≤ rows.count r))
  { count := dups.length
    duplicates_sample := (dups.take sample_size).map (fun r => t.columns.zip r) }

/-- Failure raised by the Tabular Loader (`pd.read_csv`). -/
structure LoadError where
  msg : String
deriving DecidableEq, Repr

/-- The raw bytes of a stored file. -/
abbrev Bytes := List Nat

/-- An abstract loader: what `pd.read_csv(file_path)` yields for each path. -/
abbrev Loader := String → Except LoadError Table

/-- `DataProfile.__init__` retains only the file path; the class holds no
other state. -/
structure DataProfile where
  file_path : String
deriving DecidableEq, Repr

/-- `DataProfile._load_dataframe`: read the dataset afresh from storage. -/
def DataProfile.loadDataframe (fs : Loader) (p : DataProfile) : Except LoadError Table :=
  fs p.file_path

/-- A loader assembled from a disk (path to bytes) and a parser (bytes to
table), as `pd.read_csv` reads then parses; failures propagate. -/
def mkLoader (parse : Bytes → Except LoadError Table) (disk : String → Except LoadError Bytes) :
    Loader :=
  fun path => (disk path).bind parse

/-- `summary` endpoint operation: load, then compute. -/
def DataProfile.summaryOp (fs : Loader) (p : DataProfile) : Except LoadError SummaryReport :=
  (p.loadDataframe fs).map Table.summary

/-- `missing` endpoint operation: load, then compute. -/
def DataProfile.missingOp (fs : Loader) (p : DataProfile) : Except LoadError (List MissingEntry) :=
  (p.loadDataframe fs).map Table.missing

/-- `dtypes` endpoint operation: load, then compute. -/
def DataProfile.dtypesOp (fs : Loader) (p : DataProfile) : Except LoadError (List DtypeEntry) :=
  (p.loadDataframe fs).map Table.dtypes

/-- `nunique` endpoint operation: load, then compute. -/
def DataProfile.nuniqueOp (fs : Loader) (p : DataProfile) : Except LoadError (List NuniqueEntry) :=
  (p.loadDataframe fs).map Table.nunique

/-- `outlier_table` endpoint operation: load, then compute. -/
def DataProfile.outlierTableOp (fs : Loader) (p : DataProfile) :
    Except LoadError (List OutlierEntry) :=
  (p.loadDataframe fs).map Table.outlier_table

/-- `duplicates` endpoint operation: load, then compute. -/
def DataProfile.duplicatesOp (fs : Loader) (p : DataProfile) (sample_size : Nat) :
    Except LoadError DupReport :=
  (p.loadDataframe fs).map (fun t => t.duplicates sample_size)

/-- `columns` endpoint operation: load, then compute. -/
def DataProfile.columnsOp (fs : Loader) (p : DataProfile) : Except LoadError (List String) :=
  (p.loadDataframe fs).map Table.columns

/-- `Http404` raised by `_get_dataset_path`; carries the message text. -/
structure Http404 where
  msg : List Char
deriving DecidableEq, Repr

/-- `_get_dataset_path` (src/inspector/views.py): scan the media directory
listing in order and return the path of the first file whose name starts with
the dataset id; raise `Http404` when no filename matches. Filenames and ids
are modelled as character lists. -/
def getDatasetPath (mediaRoot : String) (files : List (List Char)) (datasetId : List Char) :
    Except Http404 String :=
  match files.find? (fun f => datasetId.isPrefixOf f) with
  | some f => Except.ok (mediaRoot ++ "/" ++ String.mk f)
  | none => Except.error { msg := datasetId }

/-- Spec-side description of `outlier_table` (for the refinement claim): report
exactly the numeric-storage-type columns that have at least one non-missing
value, in column order; for each, Q1 and Q3 are the 0.25 and 0.75
linear-interpolation quantiles of the non-missing values, IQR = Q3 - Q1, a
value is an outlier iff strictly below Q1 - 1.5*IQR or strictly above
Q3 + 1.5*IQR, the pct is count over non-missing count times 100 rounded to
2 decimal places. -/
def outlierSpecEntry (c : Col) : OutlierEntry :=
  let vals := numSeries c
  let q1 := quantileLinear vals (25/100)
  let q3 := quantileLinear vals (75/100)
  let iqr := q3 - q1
  let cnt := vals.countP (fun x => decide (x < q1 - 15/10 * iqr) || decide (q3 + 15/10 * iqr < x))
  { column := c.name
    outliers := cnt
    pct := round2 ((cnt : ℚ) / (vals.length : ℚ) * 100) }

def outlierTableSpec (t : Table) : List OutlierEntry :=
  (t.cols.filter (fun c => isNumericDtype c.dtype && c.cells.any (fun x => x.isSome))).map
    outlierSpecEntry

/-- Number of distinct row-values that occur more than once in the table. -/
def repeatedDistinct (rows : List (List Cell)) : Nat :=
  (rows.toFinset.filter (fun r => 2 ≤ rows.count r)).card

/-- The spec's outlier test column `[1,2,3,4,5,6,7,8,9,100]`. -/
def L110 : List ℚ := [1, 2, 3, 4, 5, 6, 7, 8, 9, 100]

/-- A numeric column holding `[1,2,3,4,5,6,7,8,9,100]`. -/
def col110 : Col :=
  { name := "x", dtype := Dtype.int64,
    cells := L110.map (fun q : ℚ => some (Value.num q)) }

/-- Single-column table over `col110`. -/
def t110 : Table := { nrows := 10, cols := [col110] }

/-- The spec's duplicate test table: rows `[A, A, B]` over two columns, the
two `A` rows fully identical. -/
def tAAB : Table :=
  { nrows := 3,
    cols := [ { name := "a", dtype := Dtype.int64,
                cells := [some (Value.num 1), some (Value.num 1), some (Value.num 3)] },
              { name := "b", dtype := Dtype.int64,
                cells := [some (Value.num 2), some (Value.num 2), some (Value.num 4)] } ] }

/-- The record representation of the duplicated `A` row of `tAAB`. -/
def recA : List (String × Cell) :=
  [("a", some (Value.num 1)), ("b", some (Value.num 2))]

/-- The spec's nunique test table: one column `[1, null, null, 2]`. -/
def tNuniq : Table :=
  { nrows := 4,
    cols := [ { name := "c", dtype := Dtype.float64,
                cells := [some (Value.num 1), none, none, some (Value.num 2)] } ] }

/-- An empty table (0 rows) with one column, for the missing edge case. -/
def tEmpty : Table :=
  { nrows := 0, cols := [ { name := "a", dtype := Dtype.object, cells := [] } ] }

theorem quantileLinear_eval (xs s : List ℚ) (q f : ℚ) (j : Nat)
    (hs : List.insertionSort (· ≤ ·) xs = s)
    (hf : q * ((s.length : ℚ) - 1) = f)
    (hj : ⌊f⌋ = (j : ℤ)) :
    quantileLinear xs q =
      s.getD j 0 + (f - (j : ℚ)) * (s.getD (j + 1) (s.getD j 0) - s.getD j 0) := by
  simp only [quantileLinear, hs, hf, hj, Int.toNat_natCast, Int.cast_natCast]

theorem numSeries_col110 : numSeries col110 = L110 := rfl

theorem q1_110 : quantileLinear L110 (1/4) = 13/4 := by
  rw [quantileLinear_eval L110 L110 (1/4) (9/4) 2 (by decide) (by norm_num [L110]) (by norm_num)]
  have g2 : L110.getD 2 0 = 3 := rfl
  have g3 : L110.getD (2 + 1) 3 = 4 := rfl
  rw [g2, g3]
  norm_num

theorem q3_110 : quantileLinear L110 (3/4) = 31/4 := by
  rw [quantileLinear_eval L110 L110 (3/4) (27/4) 6 (by decide) (by norm_num [L110]) (by norm_num)]
  have g6 : L110.getD 6 0 = 7 := rfl
  have g7 : L110.getD (6 + 1) 7 = 8 := rfl
  rw [g6, g7]
  norm_num

theorem outlierEntry_col110 :
    outlierEntry col110 = { column := "x", outliers := 1, pct := 10 } := by
  have hs : numSeries col110 = L110 := rfl
  simp only [outlierEntry, hs, q1_110, q3_110]
  norm_num [L110, List.countP_cons, List.countP_nil, round2, roundHalfEven]
  rfl

theorem filterMap_ite {α β : Type} (l : List α) (p : α → Prop) [DecidablePred p] (f : α → β) :
    (l.filterMap fun c => if p c then none else some (f c)) =
      (l.filter fun c => decide ¬(p c)).map f := by
  induction l with
  | nil => rfl
  | cons a t ih =>
    by_cases h : p a <;> simp [List.filterMap_cons, List.filter_cons, h, ih]

theorem outlierSpecEntry_eq (c : Col) : outlierSpecEntry c = outlierEntry c := by
  simp only [outlierSpecEntry, outlierEntry]
  norm_num

theorem numSeries_len_iff (c : Col)
    (h : ∀ x ∈ c.cells, x.isSome = true → (cellNum x).isSome = true) :
    ((numSeries c).length ≠ 0) ↔ (c.cells.any fun x => x.isSome) = true := by
  rw [ne_eq, List.length_eq_zero, numSeries, List.filterMap_eq_nil_iff, List.any_eq_true]
  constructor
  · intro hne
    push_neg at hne
    obtain ⟨x, hx, hcn⟩ := hne
    refine ⟨x, hx, ?_⟩
    cases x with
    | none => simp [cellNum] at hcn
    | some v => rfl
  · intro hex hall
    obtain ⟨x, hx, hsome⟩ := hex
    have := h x hx hsome
    rw [hall x hx] at this
    simp at this

/-- C1: `outlier_table()` reports exactly the numeric-storage-type columns with
at least one non-missing value, in column order, each with the IQR-fence
outlier count over the linear-interpolation quartiles and the percentage
rounded to 2 decimals; on the column `[1,2,3,4,5,6,7,8,9,100]` the count is 1
and the pct is 10.0. -/
theorem c1_outlier_table_correct :
    (∀ t : Table,
      (∀ c ∈ t.cols, isNumericDtype c.dtype = true →
        ∀ x ∈ c.cells, x.isSome = true → (cellNum x).isSome = true) →
      t.outlier_table = outlierTableSpec t)
    ∧ t110.outlier_table = [{ column := "x", outliers := 1, pct := 10 }] := by
  constructor
  · intro t hnum
    rw [Table.outlier_table, outlierTableSpec,
      filterMap_ite (t.cols.filter fun c => isNumericDtype c.dtype)
        (fun c => (numSeries c).length = 0) outlierEntry,
      List.filter_filter]
    rw [show outlierSpecEntry = outlierEntry from funext outlierSpecEntry_eq]
    refine congrArg (List.map outlierEntry) (List.filter_congr ?_)
    intro c hc
    cases hn : isNumericDtype c.dtype with
    | false => simp [hn]
    | true =>
      have hiff := numSeries_len_iff c (hnum c hc hn)
      simp only [hn, Bool.and_true, Bool.true_and]
      cases hany : (c.cells.any fun x => Option.isSome x) with
      | true => exact decide_eq_true (hiff.mpr hany)
      | false =>
        refine decide_eq_false ?_
        intro hnp
        have hc2 := hiff.mp hnp
        rw [hany] at hc2
        exact Bool.noConfusion hc2
  · have h : t110.outlier_table = [outlierEntry col110] := rfl
    rw [h, outlierEntry_col110]

/-- C1 witness: the general refinement applied to the concrete table `t110`,
whose numeric column contains only numeric cells. -/
theorem c1_outlier_table_correct_witness :
    t110.outlier_table = outlierTableSpec t110 :=
  c1_outlier_table_correct.1 t110 (by decide)

/-- C4: `summary().missing_total` equals the sum over the entries of
`missing()` of the per-column missing counts, and both reports are computed
over the same row count: every `missing()` entry's percentage uses
`summary().rows` as its denominator basis. -/
theorem c4_missing_total_consistent :
    ∀ t : Table,
      (t.summary.missing_total = (t.missing.map MissingEntry.missing).sum)
      ∧ (∀ e ∈ t.missing, e.missing_pct =
          if t.summary.rows ≠ 0 then ((e.missing : ℚ) / (t.summary.rows : ℚ)) * 100 else 0) := by
  intro t
  constructor
  · rw [Table.missing, List.map_map]
    rfl
  · intro e he
    simp only [Table.missing, List.mem_map] at he
    obtain ⟨c, _, rfl⟩ := he
    rfl

/-- C4 witness: instantiated on the `[A,A,B]` table and its first column's
entry. -/
theorem c4_missing_total_consistent_witness :
    tAAB.summary.missing_total = (tAAB.missing.map MissingEntry.missing).sum
    ∧ { column := "a", missing := 0, missing_pct := 0 : MissingEntry } ∈ tAAB.missing
    ∧ ({ column := "a", missing := 0, missing_pct := 0 : MissingEntry }).missing_pct =
        if tAAB.summary.rows ≠ 0
        then (((0 : Nat) : ℚ) / (tAAB.summary.rows : ℚ)) * 100 else 0 := by
  have hm : tAAB.missing =
      [{ column := "a", missing := 0, missing_pct := 0 },
       { column := "b", missing := 0, missing_pct := 0 }] := by
    simp [Table.missing, tAAB, missingCount]
  have hmem : { column := "a", missing := 0, missing_pct := 0 : MissingEntry } ∈ tAAB.missing := by
    rw [hm]
    exact List.mem_cons_self _ _
  exact ⟨(c4_missing_total_consistent tAAB).1, hmem,
    (c4_missing_total_consistent tAAB).2 _ hmem⟩

/-- C5: with zero rows or zero columns, `summary().missing_pct` is 0, and on a
zero-row table every `missing()` entry has `missing_pct = 0`; the percentage
computations are total and raise no division error. -/
theorem c5_missing_pct_edge :
    ∀ t : Table,
      (t.nrows = 0 ∨ t.cols.length = 0 → t.summary.missing_pct = 0)
      ∧ (t.nrows = 0 → ∀ e ∈ t.missing, e.missing_pct = 0) := by
  intro t
  constructor
  · intro h
    simp only [Table.summary]
    rw [if_neg]
    tauto
  · intro h e he
    simp only [Table.missing, List.mem_map] at he
    obtain ⟨c, _, rfl⟩ := he
    simp [h]

/-- C5 witness: the empty table with one column. -/
theorem c5_missing_pct_edge_witness :
    tEmpty.summary.missing_pct = 0
    ∧ { column := "a", missing := 0, missing_pct := 0 : MissingEntry } ∈ tEmpty.missing
    ∧ ({ column := "a", missing := 0, missing_pct := 0 : MissingEntry }).missing_pct = 0 := by
  refine ⟨(c5_missing_pct_edge tEmpty).1 (Or.inl rfl), by decide, ?_⟩
  exact (c5_missing_pct_edge tEmpty).2 rfl
    { column := "a", missing := 0, missing_pct := 0 } (by decide)

theorem toFinset_option_eq {α : Type} [DecidableEq α] (l : List (Option α)) :
    l.toFinset = ((l.filterMap id).toFinset.image some) ∪
      (if (none : Option α) ∈ l then {none} else ∅) := by
  ext x
  cases x with
  | none =>
    by_cases h : (none : Option α) ∈ l <;>
      simp [h, List.mem_toFinset]
  | some v =>
    by_cases h : (none : Option α) ∈ l <;>
      simp [h, List.mem_toFinset, List.mem_filterMap]

theorem card_toFinset_option {α : Type} [DecidableEq α] (l : List (Option α)) :
    l.toFinset.card = (l.filterMap id).toFinset.card +
      (if (none : Option α) ∈ l then 1 else 0) := by
  rw [toFinset_option_eq l]
  rw [Finset.card_union_of_disjoint]
  · rw [Finset.card_image_of_injective _ (Option.some_injective α)]
    by_cases h : (none : Option α) ∈ l <;> simp [h]
  · by_cases h : (none : Option α) ∈ l <;> simp [h, Finset.disjoint_left]

/-- C6: `nunique()` reports, per column in column order, the number of
distinct cell values where missing is not dropped and all missing cells
contribute exactly one extra distinct value when any is present; on the
column `[1, null, null, 2]` the count is 3. -/
theorem c6_nunique_missing_class :
    (∀ t : Table, t.nunique = t.cols.map (fun c =>
      { column := c.name
        unique := (c.cells.filterMap id).toFinset.card
            + (if (none : Cell) ∈ c.cells then 1 else 0) }))
    ∧ tNuniq.nunique = [{ column := "c", unique := 3 }] := by
  constructor
  · intro t
    rw [Table.nunique]
    refine List.map_congr_left ?_
    intro c _
    have h1 : c.cells.dedup.length = c.cells.toFinset.card :=
      (List.card_toFinset c.cells).symm
    rw [NuniqueEntry.mk.injEq]
    exact ⟨rfl, by rw [h1, card_toFinset_option]⟩
  · decide

theorem dupFirstAux_countP (seen l : List (List Cell)) :
    dupFirstAux seen l =
      (List.range l.length).countP (fun i => decide (l.getD i [] ∈ seen ++ l.take i)) := by
  induction l generalizing seen with
  | nil => rfl
  | cons r rs ih =>
    rw [dupFirstAux, ih (r :: seen), List.length_cons, List.range_succ_eq_map,
      List.countP_cons, List.countP_map]
    have hpt : ∀ i ∈ List.range rs.length,
        (((fun i => decide ((r :: rs).getD i [] ∈ seen ++ (r :: rs).take i)) ∘ Nat.succ) i
            = true) ↔
          ((fun i => decide (rs.getD i [] ∈ (r :: seen) ++ rs.take i)) i = true) := by
      intro i _
      simp only [Function.comp_apply, Nat.succ_eq_add_one, decide_eq_true_eq,
        List.getD_cons_succ, List.take_succ_cons, List.cons_append,
        List.mem_cons, List.mem_append]
      tauto
    rw [List.countP_congr hpt]
    simp only [List.getD_cons_zero, List.take_zero, List.append_nil]
    by_cases hr : r ∈ seen <;> simp [hr] <;> omega

theorem countP_range_getD {α : Type} (l : List α) (d : α) (p : α → Bool) :
    (List.range l.length).countP (fun i => p (l.getD i d)) = l.countP p := by
  induction l with
  | nil => rfl
  | cons a t ih =>
    rw [List.length_cons, List.range_succ_eq_map, List.countP_cons, List.countP_map,
      List.countP_cons]
    have hpt : ∀ i ∈ List.range t.length,
        (((fun i => p ((a :: t).getD i d)) ∘ Nat.succ) i = true) ↔
          ((fun i => p (t.getD i d)) i = true) := by
      intro i _
      simp only [Function.comp_apply, Nat.succ_eq_add_one, List.getD_cons_succ]
    rw [List.countP_congr hpt, ih]
    simp only [List.getD_cons_zero]

theorem count_eq_countP_eq (l : List (List Cell)) (v : List Cell) :
    l.count v = l.countP (fun r => decide (r = v)) := by
  induction l with
  | nil => rfl
  | cons a t ih =>
    rw [List.count_cons, List.countP_cons, ih]
    by_cases h : a = v <;> simp [h]

theorem two_le_countP_of_nodup {α : Type} [DecidableEq α] (l : List α) (p : α → Bool)
    (i j : α) (hn : l.Nodup) (hi : i ∈ l) (hj : j ∈ l) (hij : i ≠ j)
    (hpi : p i = true) (hpj : p j = true) :
    2 ≤ l.countP p := by
  have hfi : i ∈ l.filter p := List.mem_filter.mpr ⟨hi, hpi⟩
  have hfj : j ∈ l.filter p := List.mem_filter.mpr ⟨hj, hpj⟩
  rw [List.countP_eq_length_filter]
  have hsub : ({i, j} : Finset α) ⊆ (l.filter p).toFinset := by
    intro x hx
    rw [Finset.mem_insert, Finset.mem_singleton] at hx
    rcases hx with rfl | rfl <;> rw [List.mem_toFinset] <;> assumption
  calc 2 = ({i, j} : Finset α).card := (Finset.card_pair hij).symm
    _ ≤ (l.filter p).toFinset.card := Finset.card_le_card hsub
    _ ≤ (l.filter p).length := List.toFinset_card_le _

theorem exists_mem_ne {α : Type} (l : List α) (hn : l.Nodup) (h2 : 2 ≤ l.length) (i : α) :
    ∃ j ∈ l, j ≠ i := by
  cases l with
  | nil => simp at h2
  | cons a t =>
    cases t with
    | nil => simp at h2
    | cons b rest =>
      have hab : a ≠ b := by
        have h := List.nodup_cons.mp hn
        intro hEq
        exact h.1 (hEq ▸ List.mem_cons_self b rest)
      by_cases hai : a = i
      · refine ⟨b, List.mem_cons_of_mem _ (List.mem_cons_self _ _), ?_⟩
        rw [← hai]
        exact fun h => hab h.symm
      · exact ⟨a, List.mem_cons_self _ _, hai⟩

theorem other_occurrence_iff (l : List (List Cell)) (d : List Cell) (i : Nat)
    (hi : i < l.length) :
    ((List.range l.length).any fun j => decide (j ≠ i) && decide (l.getD j d = l.getD i d))
      = decide (2 ≤ l.count (l.getD i d)) := by
  have hcount : l.count (l.getD i d) =
      (List.range l.length).countP (fun k => decide (l.getD k d = l.getD i d)) := by
    rw [countP_range_getD l d (fun r => decide (r = l.getD i d)), ← count_eq_countP_eq]
  rw [Bool.eq_iff_iff, decide_eq_true_eq]
  simp only [List.any_eq_true, List.mem_range, Bool.and_eq_true, decide_eq_true_eq]
  constructor
  · rintro ⟨j, hj, hji, hvj⟩
    rw [hcount]
    exact two_le_countP_of_nodup (List.range l.length) _ j i (List.nodup_range _)
      (List.mem_range.mpr hj) (List.mem_range.mpr hi) hji (decide_eq_true hvj)
      (decide_eq_true rfl)
  · intro h2
    rw [hcount] at h2
    rw [List.countP_eq_length_filter] at h2
    obtain ⟨j, hjf, hji⟩ :=
      exists_mem_ne _ ((List.nodup_range l.length).filter _) h2 i
    have hm := List.mem_filter.mp hjf
    exact ⟨j, List.mem_range.mp hm.1, hji, of_decide_eq_true hm.2⟩

/-- C3: `summary().duplicate_rows` counts exactly the rows that are
value-identical to at least one earlier row (the first occurrence of a
repeated row is not counted); on the `[A,A,B]` table it is 1. -/
theorem c3_duplicate_rows_keep_first :
    (∀ t : Table, t.summary.duplicate_rows =
      (List.range t.rows.length).countP
        (fun i => decide (t.rows.getD i [] ∈ t.rows.take i)))
    ∧ tAAB.summary.duplicate_rows = 1 := by
  constructor
  · intro t
    have h : t.summary.duplicate_rows = dupFirstAux [] t.rows := rfl
    rw [h, dupFirstAux_countP]
    simp only [List.nil_append]
  · decide

theorem duplicates_count_eq (t : Table) (s : Nat) :
    (t.duplicates s).count = t.rows.countP (fun r => decide (2 ≤ t.rows.count r)) := by
  rw [Table.duplicates, List.countP_eq_length_filter]

/-- C2: `duplicates(sample_size)` counts every row for which some other row
anywhere in the table is identical across all columns (all occurrences of a
repeated row counted), and samples up to `sample_size` such rows in original
row order as column-name-to-value records; on the `[A,A,B]` table the count is
2 and the sample holds the two `A` records, and a 0 sample size empties the
sample without changing the count. -/
theorem c2_duplicates_all_occurrences :
    (∀ (t : Table) (s : Nat),
      ((t.duplicates s).count =
        (List.range t.rows.length).countP
          (fun i => (List.range t.rows.length).any
            (fun j => decide (j ≠ i) && decide (t.rows.getD j [] = t.rows.getD i []))))
      ∧ (t.duplicates s).duplicates_sample =
          ((t.rows.filter fun r => decide (2 ≤ t.rows.count r)).take s).map
            (fun r => t.columns.zip r)
      ∧ (t.duplicates s).duplicates_sample.length ≤ s
      ∧ (t.duplicates 0).duplicates_sample = []
      ∧ (t.duplicates 0).count = (t.duplicates s).count)
    ∧ (tAAB.duplicates 5).count = 2
    ∧ (tAAB.duplicates 5).duplicates_sample = [recA, recA]
    ∧ (tAAB.duplicates 0).duplicates_sample = [] := by
  refine ⟨fun t s => ⟨?_, rfl, ?_, rfl, ?_⟩, by decide, by decide, by decide⟩
  · rw [duplicates_count_eq, ← countP_range_getD t.rows []
      (fun r => decide (2 ≤ t.rows.count r))]
    refine List.countP_congr ?_
    intro i hi
    rw [other_occurrence_iff t.rows [] i (List.mem_range.mp hi)]
  · rw [Table.duplicates]
    simp only [List.length_map]
    exact List.length_take_le _ _
  · rw [duplicates_count_eq, duplicates_count_eq]

theorem dupFirstAux_card (seen l : List (List Cell)) :
    dupFirstAux seen l = l.length - (l.toFinset \ seen.toFinset).card := by
  induction l generalizing seen with
  | nil => simp [dupFirstAux]
  | cons r rs ih =>
    rw [dupFirstAux, ih (r :: seen), List.length_cons]
    simp only [List.toFinset_cons]
    have hTle : rs.toFinset.card ≤ rs.length := List.toFinset_card_le rs
    by_cases hr : r ∈ seen
    · have h1 : insert r seen.toFinset = seen.toFinset :=
        Finset.insert_eq_self.mpr (List.mem_toFinset.mpr hr)
      have h2 : insert r rs.toFinset \ seen.toFinset = rs.toFinset \ seen.toFinset :=
        Finset.insert_sdiff_of_mem _ (List.mem_toFinset.mpr hr)
      rw [h1, h2]
      have hcle : (rs.toFinset \ seen.toFinset).card ≤ rs.length :=
        le_trans (Finset.card_le_card Finset.sdiff_subset) hTle
      simp only [hr, if_true]
      omega
    · have hrS : r ∉ seen.toFinset := fun h => hr (List.mem_toFinset.mp h)
      have h2 : rs.toFinset \ insert r seen.toFinset = (rs.toFinset \ seen.toFinset).erase r :=
        Finset.sdiff_insert rs.toFinset seen.toFinset r
      have h3 : insert r rs.toFinset \ seen.toFinset = insert r (rs.toFinset \ seen.toFinset) :=
        Finset.insert_sdiff_of_not_mem _ hrS
      rw [h2, h3]
      simp only [hr, if_false]
      have hcle : (rs.toFinset \ seen.toFinset).card ≤ rs.length :=
        le_trans (Finset.card_le_card Finset.sdiff_subset) hTle
      by_cases hrT : r ∈ rs.toFinset
      · have hrin : r ∈ rs.toFinset \ seen.toFinset := Finset.mem_sdiff.mpr ⟨hrT, hrS⟩
        rw [Finset.card_erase_of_mem hrin, Finset.insert_eq_self.mpr hrin]
        have hpos : 0 < (rs.toFinset \ seen.toFinset).card := Finset.card_pos.mpr ⟨r, hrin⟩
        omega
      · have hrnin : r ∉ rs.toFinset \ seen.toFinset := fun h => hrT (Finset.mem_sdiff.mp h).1
        rw [Finset.erase_eq_of_not_mem hrnin, Finset.card_insert_of_not_mem hrnin]
        omega

theorem count_beq_irrel (a : List Cell) (l : List (List Cell)) :
    l.count a = @List.count (List Cell) (@instBEqOfDecidableEq _ inferInstance) a l := by
  rw [count_eq_countP_eq l a]
  rfl

theorem sum_count_len (l : List (List Cell)) :
    ∑ a ∈ l.toFinset, l.count a = l.length := by
  rw [← List.sum_toFinset_count_eq_length l]
  apply Finset.sum_congr rfl
  intro a _
  exact count_beq_irrel a l

theorem countP_eq_sum (l : List (List Cell)) (p : List Cell → Bool) :
    l.countP p = ∑ a ∈ l.toFinset, if p a then l.count a else 0 := by
  rw [List.countP_eq_length_filter, ← sum_count_len (l.filter p),
    List.toFinset_filter, Finset.sum_filter]
  apply Finset.sum_congr rfl
  intro a _
  by_cases hpa : p a
  · simp only [hpa, if_true]
    exact List.count_filter hpa
  · simp only [hpa, if_false, Bool.false_eq_true]

theorem dup_count_identity (l : List (List Cell)) :
    l.countP (fun r => decide (2 ≤ l.count r)) + l.toFinset.card =
      l.length + (l.toFinset.filter (fun r => 2 ≤ l.count r)).card := by
  rw [countP_eq_sum, ← sum_count_len l,
    Finset.card_eq_sum_ones (l.toFinset.filter fun r => 2 ≤ l.count r), Finset.sum_filter,
    Finset.card_eq_sum_ones l.toFinset, ← Finset.sum_add_distrib, ← Finset.sum_add_distrib]
  apply Finset.sum_congr rfl
  intro a ha
  have hpos : 0 < l.count a := List.count_pos_iff.mpr (List.mem_toFinset.mp ha)
  by_cases h2 : 2 ≤ l.count a
  · simp [h2]
  · simp [h2]
    omega

/-- C10: `duplicates().count` equals `summary().duplicate_rows` plus the
number of distinct row-values occurring more than once; hence
`duplicate_rows ≤ count`, with equality exactly when the table has no
repeated row, in which case both counts are 0. -/
theorem c10_duplicates_vs_duplicate_rows :
    ∀ (t : Table) (s : Nat),
      (t.duplicates s).count = t.summary.duplicate_rows + repeatedDistinct t.rows
      ∧ t.summary.duplicate_rows ≤ (t.duplicates s).count
      ∧ ((t.duplicates s).count = t.summary.duplicate_rows ↔
          ∀ r ∈ t.rows, t.rows.count r ≤ 1)
      ∧ ((∀ r ∈ t.rows, t.rows.count r ≤ 1) →
          (t.duplicates s).count = 0 ∧ t.summary.duplicate_rows = 0) := by
  intro t s
  have hc : (t.duplicates s).count = t.rows.countP (fun r => decide (2 ≤ t.rows.count r)) :=
    duplicates_count_eq t s
  have hd : t.summary.duplicate_rows = t.rows.length - t.rows.toFinset.card := by
    have h0 : t.summary.duplicate_rows = dupFirstAux [] t.rows := rfl
    rw [h0, dupFirstAux_card]
    simp
  have hid := dup_count_identity t.rows
  have hle : t.rows.toFinset.card ≤ t.rows.length := List.toFinset_card_le _
  have hrd : repeatedDistinct t.rows =
      (t.rows.toFinset.filter fun r => 2 ≤ t.rows.count r).card := rfl
  have hkle : (t.rows.toFinset.filter fun r => 2 ≤ t.rows.count r).card ≤
      t.rows.toFinset.card :=
    Finset.card_le_card (Finset.filter_subset _ _)
  refine ⟨by omega, by omega, ?_, ?_⟩
  · constructor
    · intro heq
      have hk : (t.rows.toFinset.filter fun r => 2 ≤ t.rows.count r).card = 0 := by omega
      intro r hr
      by_contra hgt
      push_neg at hgt
      have hmem : r ∈ t.rows.toFinset.filter fun r => 2 ≤ t.rows.count r :=
        Finset.mem_filter.mpr ⟨List.mem_toFinset.mpr hr, by omega⟩
      have hpos := Finset.card_pos.mpr ⟨r, hmem⟩
      omega
    · intro hall
      have hk : (t.rows.toFinset.filter fun r => 2 ≤ t.rows.count r).card = 0 := by
        rw [Finset.card_eq_zero, Finset.filter_eq_empty_iff]
        intro r hrm
        have h1 := hall r (List.mem_toFinset.mp hrm)
        omega
      omega
  · intro hall
    have hcnt0 : t.rows.countP (fun r => decide (2 ≤ t.rows.count r)) = 0 := by
      rw [List.countP_eq_zero]
      intro r hr
      have h1 := hall r hr
      simp only [decide_eq_true_eq]
      omega
    omega

/-- C10 witness: on the `[A,A,B]` table the identity reads 2 = 1 + 1, and on
the all-distinct ten-row table both counts vanish. -/
theorem c10_duplicates_vs_duplicate_rows_witness :
    (tAAB.duplicates 5).count = tAAB.summary.duplicate_rows + repeatedDistinct tAAB.rows
    ∧ ((t110.duplicates 5).count = 0 ∧ t110.summary.duplicate_rows = 0) :=
  ⟨(c10_duplicates_vs_duplicate_rows tAAB 5).1,
   (c10_duplicates_vs_duplicate_rows t110 5).2.2.2 (by decide)⟩

/-- C7: when the Tabular Loader fails for a dataset handle, every one of the
seven profiling operations propagates that same `LoadError`; none returns a
report. -/
theorem c7_load_failure_propagation :
    ∀ (fs : Loader) (p : DataProfile) (e : LoadError) (s : Nat),
      fs p.file_path = Except.error e →
        p.summaryOp fs = Except.error e
        ∧ p.missingOp fs = Except.error e
        ∧ p.dtypesOp fs = Except.error e
        ∧ p.nuniqueOp fs = Except.error e
        ∧ p.outlierTableOp fs = Except.error e
        ∧ p.duplicatesOp fs s = Except.error e
        ∧ p.columnsOp fs = Except.error e := by
  intro fs p e s h
  have hl : p.loadDataframe fs = Except.error e := h
  refine ⟨?_, ?_, ?_, ?_, ?_, ?_, ?_⟩ <;>
    simp [DataProfile.summaryOp, DataProfile.missingOp, DataProfile.dtypesOp,
      DataProfile.nuniqueOp, DataProfile.outlierTableOp, DataProfile.duplicatesOp,
      DataProfile.columnsOp, hl, Except.map]

/-- C7 witness: a loader that fails on every path, applied to a concrete
profile. -/
theorem c7_load_failure_propagation_witness :
    DataProfile.summaryOp (fun _ => Except.error { msg := "bad csv" })
        { file_path := "data.csv" } =
      Except.error { msg := "bad csv" }
    ∧ DataProfile.columnsOp (fun _ => Except.error { msg := "bad csv" })
        { file_path := "data.csv" } =
      Except.error { msg := "bad csv" } :=
  ⟨(c7_load_failure_propagation (fun _ => Except.error { msg := "bad csv" })
      { file_path := "data.csv" } { msg := "bad csv" } 5 rfl).1,
   (c7_load_failure_propagation (fun _ => Except.error { msg := "bad csv" })
      { file_path := "data.csv" } { msg := "bad csv" } 5 rfl).2.2.2.2.2.2⟩

/-- C8: every profiling operation is a pure function of the bytes stored at
the profile's file path: with the parser fixed, two runs over disks agreeing
on that path yield identical reports for each of the seven operations (there
is no other state the reports can depend on). -/
theorem c8_pure_function_of_bytes :
    ∀ (parse : Bytes → Except LoadError Table)
      (d₁ d₂ : String → Except LoadError Bytes) (p : DataProfile) (s : Nat),
      d₁ p.file_path = d₂ p.file_path →
        p.summaryOp (mkLoader parse d₁) = p.summaryOp (mkLoader parse d₂)
        ∧ p.missingOp (mkLoader parse d₁) = p.missingOp (mkLoader parse d₂)
        ∧ p.dtypesOp (mkLoader parse d₁) = p.dtypesOp (mkLoader parse d₂)
        ∧ p.nuniqueOp (mkLoader parse d₁) = p.nuniqueOp (mkLoader parse d₂)
        ∧ p.outlierTableOp (mkLoader parse d₁) = p.outlierTableOp (mkLoader parse d₂)
        ∧ p.duplicatesOp (mkLoader parse d₁) s = p.duplicatesOp (mkLoader parse d₂) s
        ∧ p.columnsOp (mkLoader parse d₁) = p.columnsOp (mkLoader parse d₂) := by
  intro parse d₁ d₂ p s h
  have hl : DataProfile.loadDataframe (mkLoader parse d₁) p =
      DataProfile.loadDataframe (mkLoader parse d₂) p := by
    simp [DataProfile.loadDataframe, mkLoader, h]
  refine ⟨?_, ?_, ?_, ?_, ?_, ?_, ?_⟩ <;>
    simp [DataProfile.summaryOp, DataProfile.missingOp, DataProfile.dtypesOp,
      DataProfile.nuniqueOp, DataProfile.outlierTableOp, DataProfile.duplicatesOp,
      DataProfile.columnsOp, hl]

/-- C8 witness: the seven reports agree when the same disk is read twice. -/
theorem c8_pure_function_of_bytes_witness :
    DataProfile.summaryOp
        (mkLoader (fun _ => Except.ok tAAB) (fun _ => Except.ok [1]))
        { file_path := "d.csv" } =
      DataProfile.summaryOp
        (mkLoader (fun _ => Except.ok tAAB) (fun _ => Except.ok [1]))
        { file_path := "d.csv" } :=
  (c8_pure_function_of_bytes (fun _ => Except.ok tAAB) (fun _ => Except.ok [1])
    (fun _ => Except.ok [1]) { file_path := "d.csv" } 5 rfl).1

/-- C9: `_get_dataset_path` returns the path of a stored file whose name
starts with the dataset id whenever it returns at all, and it raises
`Http404` exactly when no stored filename starts with the id. -/
theorem c9_get_dataset_path :
    ∀ (mediaRoot : String) (files : List (List Char)) (datasetId : List Char),
      (∀ pth, getDatasetPath mediaRoot files datasetId = Except.ok pth →
        ∃ f ∈ files, datasetId.isPrefixOf f = true ∧ pth = mediaRoot ++ "/" ++ String.mk f)
      ∧ ((∃ e, getDatasetPath mediaRoot files datasetId = Except.error e) ↔
          ∀ f ∈ files, datasetId.isPrefixOf f = false) := by
  intro mediaRoot files datasetId
  constructor
  · intro pth hok
    rw [getDatasetPath] at hok
    cases hfind : files.find? (fun f => datasetId.isPrefixOf f) with
    | none => rw [hfind] at hok; exact absurd hok (by simp)
    | some f =>
      rw [hfind] at hok
      refine ⟨f, List.mem_of_find?_eq_some hfind, List.find?_some hfind, ?_⟩
      simpa using hok.symm
  · rw [getDatasetPath]
    cases hfind : files.find? (fun f => datasetId.isPrefixOf f) with
    | none =>
      simp only [hfind]
      constructor
      · intro _ f hf
        exact Bool.eq_false_iff.mpr (List.find?_eq_none.mp hfind f hf)
      · intro _
        exact ⟨{ msg := datasetId }, rfl⟩
    | some f =>
      simp only [hfind]
      constructor
      · rintro ⟨e, he⟩
        exact absurd he (by simp)
      · intro hall
        have h1 := List.find?_some hfind
        have h2 := hall f (List.mem_of_find?_eq_some hfind)
        rw [h1] at h2
        exact absurd h2 (by simp)

/-- C9 witness: with files `abc.csv` and `zz.csv`, the id `ab` resolves to the
first file's path, and the id `qq` raises `Http404`. -/
theorem c9_get_dataset_path_witness :
    (∃ f ∈ [String.toList "abc.csv", String.toList "zz.csv"],
      (String.toList "ab").isPrefixOf f = true
      ∧ "media" ++ "/" ++ String.mk f = "media" ++ "/" ++ String.mk f)
    ∧ (∀ f ∈ [String.toList "abc.csv", String.toList "zz.csv"],
        (String.toList "qq").isPrefixOf f = false) := by
  constructor
  · obtain ⟨f, hf, hpre, hpath⟩ :=
      (c9_get_dataset_path "media" [String.toList "abc.csv", String.toList "zz.csv"]
        (String.toList "ab")).1 ("media" ++ "/" ++ "abc.csv") (by rfl)
    exact ⟨f, hf, hpre, rfl⟩
  · exact (c9_get_dataset_path "media" [String.toList "abc.csv", String.toList "zz.csv"]
      (String.toList "qq")).2.mp ⟨{ msg := String.toList "qq" }, by rfl⟩
